import Mathlib

/-!
Verification of the provisioning-server configuration store.

This file gives a shallow embedding of the Python modules
`utils/dict_utils.py` (the section merge engine), `utils/ansible/hostvars.py`
(the host record store) and `utils/ansible/inventory.py` (the inventory
model and store), and proves the specified properties about them.

YAML/JSON documents are modelled by the inductive type `Val`; Python `dict`s
become association lists `List (String × Val)` in insertion order, with
`getKey`/`setKey` reproducing `dict.get` and `dict.__setitem__` (updating
a present key in place keeps its position; a fresh key is appended).
-/

set_option maxHeartbeats 1000000

namespace ProvServer

/-- A YAML/JSON value: null, boolean, integer, string, sequence, or mapping.
Mappings are association lists in insertion order, mirroring Python dicts. -/
inductive Val where
  | null : Val
  | bool : Bool → Val
  | int : Int → Val
  | str : String → Val
  | seq : List Val → Val
  | dict : List (String × Val) → Val

/-- A Python dict of `Val`s: the payloads and section values of the store. -/
abbrev Dict := List (String × Val)

/-- `d.get(k)` on a Python dict, modelled on an association list:
the binding of the first occurrence of `k`, if any. -/
def getKey {β : Type} : List (String × β) → String → Option β
  | [], _ => none
  | (k1, v) :: rest, k => if k1 = k then some v else getKey rest k

/-- `d[k] = v` on a Python dict: replace the binding in place if `k` is
present (keeping its position), otherwise append `(k, v)` at the end. -/
def setKey {β : Type} : List (String × β) → String → β → List (String × β)
  | [], k, v => [(k, v)]
  | (k1, v1) :: rest, k, v =>
      if k1 = k then (k, v) :: rest else (k1, v1) :: setKey rest k v

/-- The keys of an association list, in order. -/
def keys {β : Type} (d : List (String × β)) : List String :=
  d.map Prod.fst

/-- The base mapping used by `deep_merge` when recursing at key `k`:
`d1.get(k)` if it is a mapping, else the empty mapping (the code assigns
`d1[k] = {}` when `d1.get(k)` is absent or not a dict). -/
def baseDict : Option Val → Dict
  | some (Val.dict d) => d
  | _ => []

mutual
/-- `deep_merge(d1, d2)` from `utils/dict_utils.py`: iterate over `d2`'s
items in order; a mapping value recurses into (`d1[k]` if it is a mapping,
else `{}`), any other value is assigned verbatim. -/
def deep_merge : Dict → Dict → Dict
  | d1, [] => d1
  | d1, (k, v) :: rest => deep_merge (setKey d1 k (mergeVal (getKey d1 k) v)) rest
termination_by d1 d2 => sizeOf d2

/-- The value stored at key `k` by one step of the `deep_merge` loop, given
the current value `old` at `k`: mappings merge recursively, everything else
(scalars and sequences) replaces the old value wholesale. -/
def mergeVal (old : Option Val) : Val → Val
  | Val.dict vd => Val.dict (deep_merge (baseDict old) vd)
  | v => v
termination_by v => sizeOf v
end

mutual
/-- Structural (byte-for-byte) equality of two document values, as used by
the dirty check that compares a rewritten file against its previous content. -/
def beqVal : Val → Val → Bool
  | Val.null, Val.null => true
  | Val.bool a, Val.bool b => a == b
  | Val.int a, Val.int b => a == b
  | Val.str a, Val.str b => a == b
  | Val.seq a, Val.seq b => beqValList a b
  | Val.dict a, Val.dict b => beqValDict a b
  | _, _ => false
termination_by a _ => sizeOf a

/-- Structural equality of two sequences of document values. -/
def beqValList : List Val → List Val → Bool
  | [], [] => true
  | a :: as, b :: bs => beqVal a b && beqValList as bs
  | _, _ => false
termination_by a _ => sizeOf a

/-- Structural equality of two mappings. -/
def beqValDict : List (String × Val) → List (String × Val) → Bool
  | [], [] => true
  | (k1, v1) :: as, (k2, v2) :: bs => k1 == k2 && beqVal v1 v2 && beqValDict as bs
  | _, _ => false
termination_by a _ => sizeOf a
end

mutual
/-- Well-formedness of a document value, as every value decoded from YAML or
a Python object satisfies it: every mapping anywhere inside has
duplicate-free keys. -/
def wfVal : Val → Bool
  | Val.seq l => wfValList l
  | Val.dict d => wfDict d
  | _ => true
termination_by v => sizeOf v

/-- Well-formedness of each element of a sequence. -/
def wfValList : List Val → Bool
  | [] => true
  | v :: rest => wfVal v && wfValList rest
termination_by l => sizeOf l

/-- Well-formedness of a mapping: no duplicate key at this level, and every
value well-formed. -/
def wfDict : Dict → Bool
  | [] => true
  | (k, v) :: rest => !(getKey rest k).isSome && wfVal v && wfDict rest
termination_by d => sizeOf d
end

/-! ## Host record store (`utils/ansible/hostvars.py`) -/
/-- The hostvars section selector `HostvarType` from
`utils/ansible/hostvars.py`. -/
inductive HostvarType where
  | state : HostvarType
  | storage : HostvarType
  | system : HostvarType
  | any : HostvarType
deriving DecidableEq

/-- The `.value` string of a `HostvarType` member. -/
def HostvarType.value : HostvarType → String
  | HostvarType.state => "state"
  | HostvarType.storage => "storage"
  | HostvarType.system => "system"
  | HostvarType.any => "any"

/-- The update discipline `ReplacementType` from `utils/dict_utils.py`. -/
inductive ReplacementType where
  | override : ReplacementType
  | in_place : ReplacementType
deriving DecidableEq

/-- In-memory hostvars data: host name to record, one record per `.yml`
file (`Hostvars.data`). -/
abbrev HvData := List (String × Dict)

/-- `deep_merge(x, nd)` where the first argument is an arbitrary stored
value, as in `deep_merge(host_data.get(var_type.value, {}), new_data)`:
with an empty `nd` the loop body never runs and `x` comes back untouched
whatever it is; otherwise `x` must be a mapping, and a non-mapping `x`
raises (`TypeError`/`AttributeError` on the first item). -/
def pyDeepMergeVal : Val → Dict → Except Unit Val
  | x, [] => Except.ok x
  | Val.dict d1, d2 => Except.ok (Val.dict (deep_merge d1 d2))
  | _, _ => Except.error ()

/-- `Hostvars.update(host, var_type, replace_type, new_data)`:
`setdefault` the host's record, then either override the whole record
(`OVERRIDE`+`ANY`), override one section, deep-merge the whole record
(`IN_PLACE`+`ANY`), or deep-merge one section.  An exception from
`deep_merge` on a non-mapping stored section propagates. -/
def hvUpdate (data : HvData) (host : String) (vt : HostvarType)
    (rt : ReplacementType) (nd : Dict) : Except Unit HvData :=
  let hd := (getKey data host).getD []
  match rt, vt with
  | ReplacementType.override, HostvarType.any =>
      Except.ok (setKey data host nd)
  | ReplacementType.override, vt =>
      Except.ok (setKey data host (setKey hd vt.value (Val.dict nd)))
  | ReplacementType.in_place, HostvarType.any =>
      Except.ok (setKey data host (deep_merge hd nd))
  | ReplacementType.in_place, vt =>
      (pyDeepMergeVal ((getKey hd vt.value).getD (Val.dict [])) nd).map
        (fun v => setKey data host (setKey hd vt.value v))

/-- `HostvarsManager.update`: reload every record file (`load`), apply
`Hostvars.update`, and save every record back (`save`), so the persisted
store after a successful update is exactly the updated data; on an
exception nothing is saved. -/
def mgrUpdate (store : HvData) (host : String) (vt : HostvarType)
    (rt : ReplacementType) (nd : Dict) : Except Unit HvData :=
  hvUpdate store host vt rt nd

/-- `HostvarsManager.get` via `Hostvars.get`: `data.get(host, {})`. -/
def mgrGet (store : HvData) (host : String) : Dict :=
  (getKey store host).getD []

/-- `HostvarsManager.delete`: remove the host's record file if it exists,
else log a warning and leave the store untouched. -/
def mgrDelete (store : HvData) (host : String) : HvData :=
  if (getKey store host).isSome then store.filter (fun p => p.1 != host)
  else store

/-- `StateModel().model_dump()`: the default state section. -/
def stateModelDump : Dict := [("is_provisioned", Val.bool false)]

/-- `HostvarsManager.create(host, storage, system)`: if the record file
already exists, log a warning and return (no error, nothing written);
otherwise write the `system`, default `state`, and `storage` sections with
override discipline. -/
def mgrCreate (store : HvData) (host : String) (storage system : Dict) :
    Except Unit HvData :=
  if (getKey store host).isSome then Except.ok store
  else
    (hvUpdate store host HostvarType.system ReplacementType.override system).bind
      (fun s1 =>
        (hvUpdate s1 host HostvarType.state ReplacementType.override stateModelDump).bind
          (fun s2 => hvUpdate s2 host HostvarType.storage ReplacementType.override storage))

/-! ## Inventory model and store (`utils/ansible/inventory.py`) -/
/-- The in-memory inventory: host name to host-variable mapping, and group
name to member host names (insertion order), wrapping the internal Ansible
inventory state used by the `Inventory` domain model. The `all` group holds
every host, since every added host is placed in `all` first. -/
structure Inv where
  hosts : List (String × Dict)
  groups : List (String × List String)

/-- `add_group(g)`: create the group if absent. -/
def ensureGroup (inv : Inv) (g : String) : Inv :=
  if (getKey inv.groups g).isSome then inv
  else { inv with groups := inv.groups ++ [(g, [])] }

/-- `add_host(h, group)`: create the host entry if absent and append it to
the group's member list when not already a member. -/
def addHostToGroup (inv : Inv) (h g : String) : Inv :=
  let inv1 := if (getKey inv.hosts h).isSome then inv
              else { inv with hosts := inv.hosts ++ [(h, [])] }
  { inv1 with groups := inv1.groups.map (fun p =>
      if p.1 = g && !(p.2.contains h) then (p.1, p.2 ++ [h]) else p) }

/-- `host_entry.set_variable(k, v)`. -/
def setHostVar (inv : Inv) (h k : String) (v : Val) : Inv :=
  { inv with hosts := inv.hosts.map (fun p =>
      if p.1 = h then (p.1, setKey p.2 k v) else p) }

/-- `Inventory.add_host(host_name, groups, ip, mac, port, ansible_user)`:
ensure `all` exists, raise `ValueError` when the host is already present,
else add the host to `all`, set its connection variables, and add it to
each further group, skipping the sentinels `all`/`ungrouped`/empty string
and creating missing groups. -/
def invAddHost (inv : Inv) (host : String) (gs : List String)
    (ip mac : String) (port : Int) (user : String) : Except String Inv :=
  let inv0 := ensureGroup inv "all"
  if host ∈ keys inv0.hosts then Except.error "Host already exists."
  else
    let i1 := addHostToGroup inv0 host "all"
    let i2 := setHostVar i1 host "ansible_host" (Val.str ip)
    let i3 := setHostVar i2 host "ansible_user" (Val.str user)
    let i4 := setHostVar i3 host "ansible_port" (Val.int port)
    let i5 := setHostVar i4 host "primary_mac" (Val.str mac)
    Except.ok (gs.foldl (fun acc g =>
      if g = "all" || g = "ungrouped" || g = "" then acc
      else addHostToGroup (ensureGroup acc g) host g) i5)

/-- `InventoryManager.add_host`: load, delegate to the domain model, and
save only on success; a `ValueError` is logged and swallowed, leaving the
persisted inventory untouched.  The boolean records whether `save` ran. -/
def mgrAddHost (inv : Inv) (host : String) (gs : List String)
    (ip mac : String) (port : Int) (user : String) : Inv × Bool :=
  match invAddHost inv host gs ip mac port user with
  | Except.ok inv2 => (inv2, true)
  | Except.error _ => (inv, false)

/-- `Inventory.remove_host(host_name)`: warn and return when the host is
absent; otherwise remove the host from the host table and from every
group's member list, then remove every group whose member list became
empty. -/
def invRemoveHost (inv : Inv) (host : String) : Inv :=
  if host ∈ keys inv.hosts then
    { hosts := inv.hosts.filter (fun p => p.1 != host),
      groups := (inv.groups.map (fun p =>
        (p.1, p.2.filter (fun x => x != host)))).filter (fun p => !p.2.isEmpty) }
  else inv

/-- The `hosts` mapping of `Inventory.to_dict()`: each host of the `all`
group with its variables, minus `inventory_file`/`inventory_dir`. -/
def hostsSection (inv : Inv) : Dict :=
  ((getKey inv.groups "all").getD []).filterMap (fun h =>
    (getKey inv.hosts h).map (fun vars2 =>
      (h, Val.dict (vars2.filter (fun p =>
        p.1 != "inventory_file" && p.1 != "inventory_dir")))))

/-- The `children` mapping of `Inventory.to_dict()`: every group except
`all`/`ungrouped`, each serialized as `hosts: (member ↦ null)`. -/
def childrenSection (inv : Inv) : Dict :=
  (inv.groups.filter (fun p => p.1 != "all" && p.1 != "ungrouped")).map
    (fun p => (p.1, Val.dict [("hosts", Val.dict (p.2.map (fun h2 => (h2, Val.null))))]))

/-- `Inventory.to_dict()`: the persisted inventory document
`(all ↦ (hosts ↦ …, children ↦ …))`. -/
def invToDict (inv : Inv) : Dict :=
  [("all", Val.dict [("hosts", Val.dict (hostsSection inv)),
                     ("children", Val.dict (childrenSection inv))])]

/-- `InventoryManager.remove_host`: load, delegate removal to the domain
model (which never raises `ValueError`), then `save`: write the serialized
document and commit-and-push only if the working tree is dirty, i.e. the
rewritten document differs from the previous one.  Returns the persisted
document and whether a commit was triggered. -/
def mgrRemoveHost (inv : Inv) (host : String) : Dict × Bool :=
  let inv2 := invRemoveHost inv host
  let newDoc := invToDict inv2
  (newDoc, !(beqValDict newDoc (invToDict inv)))

mutual
theorem beqVal_refl : ∀ a : Val, beqVal a a = true
  | Val.null => by simp [beqVal]
  | Val.bool b => by simp [beqVal]
  | Val.int n => by simp [beqVal]
  | Val.str s => by simp [beqVal]
  | Val.seq l => by simp only [beqVal]; exact beqValList_refl l
  | Val.dict d => by simp only [beqVal]; exact beqValDict_refl d
termination_by a => sizeOf a

theorem beqValList_refl : ∀ l : List Val, beqValList l l = true
  | [] => by simp [beqValList]
  | a :: as => by
      simp only [beqValList, Bool.and_eq_true]
      exact ⟨beqVal_refl a, beqValList_refl as⟩
termination_by l => sizeOf l

theorem beqValDict_refl : ∀ d : List (String × Val), beqValDict d d = true
  | [] => by simp [beqValDict]
  | (k, v) :: rest => by
      simp only [beqValDict, Bool.and_eq_true, beq_self_eq_true, true_and]
      exact ⟨beqVal_refl v, beqValDict_refl rest⟩
termination_by d => sizeOf d
end

theorem getKey_setKey_self {β : Type} (d : List (String × β)) (k : String) (v : β) :
    getKey (setKey d k v) k = some v := by
  induction d with
  | nil => simp [getKey, setKey]
  | cons p rest ih =>
    obtain ⟨k1, v1⟩ := p
    by_cases h : k1 = k
    · subst h
      simp [getKey, setKey]
    · simp [getKey, setKey, h, ih]

theorem getKey_setKey_ne {β : Type} (d : List (String × β)) (k k2 : String) (v : β)
    (h : k2 ≠ k) : getKey (setKey d k v) k2 = getKey d k2 := by
  have hne : ¬(k = k2) := fun he => h he.symm
  induction d with
  | nil => simp [getKey, setKey, hne]
  | cons p rest ih =>
    obtain ⟨k1, v1⟩ := p
    by_cases h1 : k1 = k
    · subst h1
      simp [getKey, setKey, hne]
    · by_cases h2 : k1 = k2 <;> simp [getKey, setKey, h1, h2, h, ih]

theorem setKey_self {β : Type} (d : List (String × β)) (k : String) (v : β)
    (h : getKey d k = some v) : setKey d k v = d := by
  induction d with
  | nil => simp [getKey] at h
  | cons p rest ih =>
    obtain ⟨k1, v1⟩ := p
    by_cases h1 : k1 = k
    · subst h1
      simp [getKey] at h
      simp [setKey, h]
    · simp [getKey, h1] at h
      simp [setKey, h1, ih h]

theorem getKey_eq_none_of_not_mem {β : Type} (d : List (String × β)) (k : String)
    (h : k ∉ keys d) : getKey d k = none := by
  induction d with
  | nil => simp [getKey]
  | cons p rest ih =>
    obtain ⟨k1, v1⟩ := p
    have h1 : ¬(k1 = k) := by
      intro he
      subst he
      exact h (List.mem_cons_self _ _)
    have h2 : k ∉ keys rest := fun hm => h (List.mem_cons_of_mem _ hm)
    simp [getKey, h1, ih h2]

theorem getKey_of_mem_nodup {β : Type} (d : List (String × β)) (k : String) (v : β)
    (hnd : (keys d).Nodup) (hm : (k, v) ∈ d) : getKey d k = some v := by
  induction d with
  | nil => simp at hm
  | cons p rest ih =>
    obtain ⟨k1, v1⟩ := p
    have hcons : (k1 :: keys rest).Nodup := by simpa [keys] using hnd
    have hnd1 : k1 ∉ keys rest := (List.nodup_cons.mp hcons).1
    have hnd2 : (keys rest).Nodup := (List.nodup_cons.mp hcons).2
    rcases List.mem_cons.mp hm with he | hr
    · have hk : k = k1 := congrArg Prod.fst he
      have hv : v = v1 := congrArg Prod.snd he
      subst hk
      subst hv
      simp [getKey]
    · have hk1 : ¬(k1 = k) := by
        intro he
        subst he
        exact hnd1 (List.mem_map_of_mem Prod.fst hr)
      simp [getKey, hk1, ih hnd2 hr]

/-- Keys absent from the update are untouched by `deep_merge`. -/
theorem deep_merge_getKey_of_not_mem (d2 : Dict) :
    ∀ (d1 : Dict) (k : String), k ∉ keys d2 →
      getKey (deep_merge d1 d2) k = getKey d1 k := by
  induction d2 with
  | nil =>
    intro d1 k _
    simp [deep_merge]
  | cons p rest ih =>
    intro d1 k hk
    obtain ⟨k1, v⟩ := p
    have h1 : ¬(k1 = k) := by
      intro he
      subst he
      exact hk (List.mem_cons_self _ _)
    have h2 : k ∉ keys rest := fun hm => hk (List.mem_cons_of_mem _ hm)
    rw [deep_merge]
    rw [ih _ k h2]
    exact getKey_setKey_ne _ _ _ _ (fun he => h1 he.symm)

/-- Each key of a duplicate-free update ends up bound to the one-step merge
of its old value with the update's value. -/
theorem deep_merge_getKey_of_mem (d2 : Dict) :
    ∀ (d1 : Dict) (k : String) (v : Val), (keys d2).Nodup → getKey d2 k = some v →
      getKey (deep_merge d1 d2) k = some (mergeVal (getKey d1 k) v) := by
  induction d2 with
  | nil =>
    intro d1 k v _ hv
    simp [getKey] at hv
  | cons p rest ih =>
    intro d1 k v hnd hv
    obtain ⟨k1, v1⟩ := p
    have hcons : (k1 :: keys rest).Nodup := by simpa [keys] using hnd
    have hnd1 : k1 ∉ keys rest := (List.nodup_cons.mp hcons).1
    have hnd2 : (keys rest).Nodup := (List.nodup_cons.mp hcons).2
    by_cases hk : k1 = k
    · subst hk
      simp [getKey] at hv
      subst hv
      rw [deep_merge]
      rw [deep_merge_getKey_of_not_mem rest _ k1 hnd1]
      exact getKey_setKey_self _ _ _
    · simp [getKey, hk] at hv
      rw [deep_merge]
      rw [ih _ k v hnd2 hv]
      rw [getKey_setKey_ne _ _ _ _ (fun he => hk he.symm)]

/-- A non-mapping update value is stored verbatim. -/
theorem mergeVal_of_not_dict (old : Option Val) (v : Val)
    (h : ∀ d, v ≠ Val.dict d) : mergeVal old v = v := by
  cases v with
  | dict d => exact absurd rfl (h d)
  | null => simp [mergeVal]
  | bool b => simp [mergeVal]
  | int n => simp [mergeVal]
  | str s => simp [mergeVal]
  | seq l => simp [mergeVal]

/-- C1: the in-place (deep-merge) discipline: keys only in the existing
mapping `E` keep their `E` value; a key of `U` holding a mapping gets the
recursive deep-merge of (`E`'s value there when it is a mapping, else the
empty mapping) with `U`'s mapping; any other key of `U` gets `U`'s value
verbatim (scalars and sequences replace wholesale). -/
theorem deep_merge_update_discipline (E U : Dict) (hU : (keys U).Nodup) :
    (∀ k, k ∉ keys U → getKey (deep_merge E U) k = getKey E k) ∧
    (∀ k ud, getKey U k = some (Val.dict ud) →
      getKey (deep_merge E U) k = some (Val.dict (deep_merge (baseDict (getKey E k)) ud))) ∧
    (∀ k v, getKey U k = some v → (∀ d, v ≠ Val.dict d) →
      getKey (deep_merge E U) k = some v) := by
  refine ⟨fun k hk => deep_merge_getKey_of_not_mem U E k hk, fun k ud hud => ?_, fun k v hv hnd => ?_⟩
  · rw [deep_merge_getKey_of_mem U E k (Val.dict ud) hU hud]
    rw [mergeVal]
  · rw [deep_merge_getKey_of_mem U E k v hU hv]
    rw [mergeVal_of_not_dict _ _ hnd]

/-- Witness for C1 at
`E = (a ↦ 1, b ↦ (c ↦ 2), s ↦ 7)` and
`U = (b ↦ (d ↦ 3), s ↦ (1, 2))`. -/
theorem deep_merge_update_discipline_witness :
    (keys [("b", Val.dict [("d", Val.int 3)]), ("s", Val.seq [Val.int 1, Val.int 2])]).Nodup ∧
    getKey (deep_merge
        [("a", Val.int 1), ("b", Val.dict [("c", Val.int 2)]), ("s", Val.int 7)]
        [("b", Val.dict [("d", Val.int 3)]), ("s", Val.seq [Val.int 1, Val.int 2])]) "a"
      = getKey [("a", Val.int 1), ("b", Val.dict [("c", Val.int 2)]), ("s", Val.int 7)] "a" ∧
    getKey (deep_merge
        [("a", Val.int 1), ("b", Val.dict [("c", Val.int 2)]), ("s", Val.int 7)]
        [("b", Val.dict [("d", Val.int 3)]), ("s", Val.seq [Val.int 1, Val.int 2])]) "b"
      = some (Val.dict (deep_merge
          (baseDict (getKey [("a", Val.int 1), ("b", Val.dict [("c", Val.int 2)]), ("s", Val.int 7)] "b"))
          [("d", Val.int 3)])) ∧
    getKey (deep_merge
        [("a", Val.int 1), ("b", Val.dict [("c", Val.int 2)]), ("s", Val.int 7)]
        [("b", Val.dict [("d", Val.int 3)]), ("s", Val.seq [Val.int 1, Val.int 2])]) "s"
      = some (Val.seq [Val.int 1, Val.int 2]) := by
  have h := deep_merge_update_discipline
    [("a", Val.int 1), ("b", Val.dict [("c", Val.int 2)]), ("s", Val.int 7)]
    [("b", Val.dict [("d", Val.int 3)]), ("s", Val.seq [Val.int 1, Val.int 2])]
    (by simp [keys])
  refine ⟨by simp [keys], h.1 "a" (by simp [keys]), h.2.1 "b" _ (by simp [getKey]), h.2.2 "s" _ (by simp [getKey]) (by simp)⟩

theorem wfDict_cons (k : String) (v : Val) (rest : Dict) (h : wfDict ((k, v) :: rest) = true) :
    (getKey rest k = none) ∧ wfVal v = true ∧ wfDict rest = true := by
  rw [wfDict] at h
  simp only [Bool.and_eq_true, Bool.not_eq_true'] at h
  exact ⟨Option.not_isSome_iff_eq_none.mp (by simp [h.1.1]), h.1.2, h.2⟩

theorem getKey_isSome_of_mem {β : Type} (d : List (String × β)) (k : String)
    (h : k ∈ keys d) : (getKey d k).isSome := by
  induction d with
  | nil => simp [keys] at h
  | cons p rest ih =>
    obtain ⟨k1, v1⟩ := p
    by_cases hk : k1 = k
    · simp [getKey, hk]
    · have hr : k ∈ keys rest := by
        rcases List.mem_cons.mp h with he | hr
        · exact absurd he.symm hk
        · exact hr
      simp [getKey, hk, ih hr]

theorem nodup_keys_of_wfDict (d : Dict) (h : wfDict d = true) : (keys d).Nodup := by
  induction d with
  | nil => simp [keys]
  | cons p rest ih =>
    obtain ⟨k, v⟩ := p
    obtain ⟨h1, _, h3⟩ := wfDict_cons k v rest h
    refine List.Nodup.cons ?_ (ih h3)
    intro hm
    have := getKey_isSome_of_mem rest k hm
    simp [h1] at this

theorem wfVal_of_mem_wfDict (k : String) (v : Val) (d : Dict)
    (hw : wfDict d = true) (hm : (k, v) ∈ d) : wfVal v = true := by
  induction d with
  | nil => simp at hm
  | cons p rest ih =>
    obtain ⟨k1, v1⟩ := p
    obtain ⟨_, h2, h3⟩ := wfDict_cons k1 v1 rest hw
    rcases List.mem_cons.mp hm with he | hr
    · rw [show v = v1 from congrArg Prod.snd he]
      exact h2
    · exact ih h3 hr

theorem baseDict_some_dict (d : Dict) : baseDict (some (Val.dict d)) = d := rfl

/-- If one loop step of `deep_merge` leaves `R` unchanged at every binding
of `U`, then the whole merge of `U` into `R` leaves `R` unchanged. -/
theorem deep_merge_fixed (U : Dict) : ∀ R : Dict,
    (∀ p ∈ U, setKey R p.1 (mergeVal (getKey R p.1) p.2) = R) →
    deep_merge R U = R := by
  induction U with
  | nil =>
    intro R _
    simp [deep_merge]
  | cons p rest ih =>
    intro R h
    obtain ⟨k, v⟩ := p
    rw [deep_merge]
    rw [show setKey R k (mergeVal (getKey R k) v) = R from h (k, v) (List.mem_cons_self _ _)]
    exact ih R (fun q hq => h q (List.mem_cons_of_mem _ hq))

theorem deep_merge_idem_aux : ∀ n : Nat, ∀ U : Dict, sizeOf U < n → wfDict U = true →
    ∀ E : Dict, deep_merge (deep_merge E U) U = deep_merge E U := by
  intro n
  induction n with
  | zero =>
    intro U h
    exact absurd h (Nat.not_lt_zero _)
  | succ n ih =>
    intro U hsz hwf E
    have hnd : (keys U).Nodup := nodup_keys_of_wfDict U hwf
    apply deep_merge_fixed
    intro p hp
    obtain ⟨k, v⟩ := p
    have hszp := List.sizeOf_lt_of_mem hp
    have hget : getKey U k = some v := getKey_of_mem_nodup U k v hnd hp
    have hR : getKey (deep_merge E U) k = some (mergeVal (getKey E k) v) :=
      deep_merge_getKey_of_mem U E k v hnd hget
    cases v with
    | dict vd =>
      have hszd : sizeOf vd < n := by
        simp only [Prod.mk.sizeOf_spec, Val.dict.sizeOf_spec] at hszp
        omega
      have hwfd : wfDict vd = true := by
        have := wfVal_of_mem_wfDict k (Val.dict vd) U hwf hp
        rwa [wfVal] at this
      rw [mergeVal] at hR
      simp only [hR, mergeVal, baseDict_some_dict]
      rw [ih vd hszd hwfd (baseDict (getKey E k))]
      exact setKey_self _ _ _ hR
    | null =>
      rw [mergeVal_of_not_dict _ _ (by simp)] at hR
      simp only [hR, mergeVal]
      exact setKey_self _ _ _ hR
    | bool b =>
      rw [mergeVal_of_not_dict _ _ (by simp)] at hR
      simp only [hR, mergeVal]
      exact setKey_self _ _ _ hR
    | int m =>
      rw [mergeVal_of_not_dict _ _ (by simp)] at hR
      simp only [hR, mergeVal]
      exact setKey_self _ _ _ hR
    | str s =>
      rw [mergeVal_of_not_dict _ _ (by simp)] at hR
      simp only [hR, mergeVal]
      exact setKey_self _ _ _ hR
    | seq l =>
      rw [mergeVal_of_not_dict _ _ (by simp)] at hR
      simp only [hR, mergeVal]
      exact setKey_self _ _ _ hR

/-- C2: applying the same in-place deep-merge update twice changes nothing:
`merge(merge(E,U,in-place),U,in-place) = merge(E,U,in-place)` for every
well-formed update mapping `U`. -/
theorem deep_merge_idempotent (E U : Dict) (hU : wfDict U = true) :
    deep_merge (deep_merge E U) U = deep_merge E U :=
  deep_merge_idem_aux (sizeOf U + 1) U (Nat.lt_succ_self _) hU E

/-- Witness for C2 at `E = (a ↦ 1, b ↦ (c ↦ 2))` and
`U = (b ↦ (d ↦ 3), e ↦ 4)`. -/
theorem deep_merge_idempotent_witness :
    wfDict [("b", Val.dict [("d", Val.int 3)]), ("e", Val.int 4)] = true ∧
    deep_merge
        (deep_merge [("a", Val.int 1), ("b", Val.dict [("c", Val.int 2)])]
          [("b", Val.dict [("d", Val.int 3)]), ("e", Val.int 4)])
        [("b", Val.dict [("d", Val.int 3)]), ("e", Val.int 4)]
      = deep_merge [("a", Val.int 1), ("b", Val.dict [("c", Val.int 2)])]
          [("b", Val.dict [("d", Val.int 3)]), ("e", Val.int 4)] :=
  ⟨by simp [wfDict, wfVal, getKey],
   deep_merge_idempotent [("a", Val.int 1), ("b", Val.dict [("c", Val.int 2)])]
     [("b", Val.dict [("d", Val.int 3)]), ("e", Val.int 4)]
     (by simp [wfDict, wfVal, getKey])⟩

theorem pyDeepMergeVal_dict (d1 d2 : Dict) :
    pyDeepMergeVal (Val.dict d1) d2 = Except.ok (Val.dict (deep_merge d1 d2)) := by
  cases d2 with
  | nil =>
    rw [pyDeepMergeVal, deep_merge]
  | cons p rest =>
    rw [pyDeepMergeVal]
    simp

theorem hvUpdate_inplace_present_section (data : HvData) (host : String)
    (vt : HostvarType) (r : Dict) (v : Val) (hvt : vt ≠ HostvarType.any)
    (hr : getKey data host = some r) (hv : getKey r vt.value = some v) :
    hvUpdate data host vt ReplacementType.in_place [] = Except.ok data := by
  cases vt with
  | any => exact absurd rfl hvt
  | state =>
    simp only [HostvarType.value] at hv
    simp only [hvUpdate, hr, Option.getD_some, HostvarType.value, hv]
    rw [pyDeepMergeVal]
    simp only [Except.map, Option.getD_some]
    rw [setKey_self _ _ _ hv, setKey_self _ _ _ hr]
  | storage =>
    simp only [HostvarType.value] at hv
    simp only [hvUpdate, hr, Option.getD_some, HostvarType.value, hv]
    rw [pyDeepMergeVal]
    simp only [Except.map, Option.getD_some]
    rw [setKey_self _ _ _ hv, setKey_self _ _ _ hr]
  | system =>
    simp only [HostvarType.value] at hv
    simp only [hvUpdate, hr, Option.getD_some, HostvarType.value, hv]
    rw [pyDeepMergeVal]
    simp only [Except.map, Option.getD_some]
    rw [setKey_self _ _ _ hv, setKey_self _ _ _ hr]

/-- C3 (amended): for an existing host record, an update with the empty
mapping as payload is a no-op under the in-place discipline when the target
is the whole record (`ANY`) or a section that is present in the record.
(Under the override discipline, and under in-place targeting an absent
named section, the target is instead set to the empty mapping.) -/
theorem hvUpdate_empty_inplace_noop (data : HvData) (host : String)
    (vt : HostvarType) (r : Dict) (hr : getKey data host = some r)
    (hvt : vt = HostvarType.any ∨ (getKey r vt.value).isSome) :
    hvUpdate data host vt ReplacementType.in_place [] = Except.ok data := by
  by_cases ha : vt = HostvarType.any
  · subst ha
    simp only [hvUpdate, hr, Option.getD_some]
    rw [deep_merge]
    rw [setKey_self _ _ _ hr]
  · rcases hvt with ha2 | hp
    · exact absurd ha2 ha
    · obtain ⟨v, hv⟩ := Option.isSome_iff_exists.mp hp
      exact hvUpdate_inplace_present_section data host vt r v ha hr hv

/-- Witness for C3 (amended): both in-place no-op cases on the record
`h1 ↦ (state ↦ (a ↦ 1))`. -/
theorem hvUpdate_empty_inplace_noop_witness :
    hvUpdate [("h1", [("state", Val.dict [("a", Val.int 1)])])] "h1"
        HostvarType.any ReplacementType.in_place []
      = Except.ok [("h1", [("state", Val.dict [("a", Val.int 1)])])] ∧
    hvUpdate [("h1", [("state", Val.dict [("a", Val.int 1)])])] "h1"
        HostvarType.state ReplacementType.in_place []
      = Except.ok [("h1", [("state", Val.dict [("a", Val.int 1)])])] :=
  ⟨hvUpdate_empty_inplace_noop [("h1", [("state", Val.dict [("a", Val.int 1)])])] "h1"
      HostvarType.any [("state", Val.dict [("a", Val.int 1)])] rfl (Or.inl rfl),
   hvUpdate_empty_inplace_noop [("h1", [("state", Val.dict [("a", Val.int 1)])])] "h1"
      HostvarType.state [("state", Val.dict [("a", Val.int 1)])] rfl (Or.inr rfl)⟩

/-- Counterexample to C3 as stated: on the record `h1 ↦ (state ↦ (a ↦ 1))`,
an empty update of section `state` under the override discipline wipes the
section, and an empty in-place update of the absent section `storage` adds
`storage ↦ ()` to the record; neither leaves the stored value unchanged. -/
theorem hvUpdate_empty_not_noop_counterexample :
    ¬(hvUpdate [("h1", [("state", Val.dict [("a", Val.int 1)])])] "h1"
        HostvarType.state ReplacementType.override []
      = Except.ok [("h1", [("state", Val.dict [("a", Val.int 1)])])]) ∧
    ¬(hvUpdate [("h1", [("state", Val.dict [("a", Val.int 1)])])] "h1"
        HostvarType.storage ReplacementType.in_place []
      = Except.ok [("h1", [("state", Val.dict [("a", Val.int 1)])])]) := by
  constructor
  · intro h
    simp [hvUpdate, getKey, setKey, HostvarType.value] at h
  · intro h
    simp [hvUpdate, getKey, setKey, HostvarType.value, pyDeepMergeVal, Except.map] at h

/-- C9: a section update for a host with no existing record does not fail:
the update succeeds and silently creates a record for the host, which is
present in the store afterwards; for a named target section the fresh
record contains that section. -/
theorem mgrUpdate_missing_host (store : HvData) (host : String)
    (vt : HostvarType) (rt : ReplacementType) (nd : Dict)
    (hh : getKey store host = none) :
    ∃ d2, mgrUpdate store host vt rt nd = Except.ok d2 ∧
      (getKey d2 host).isSome = true ∧
      (vt ≠ HostvarType.any → ∃ r2, getKey d2 host = some r2 ∧
        (getKey r2 vt.value).isSome = true) := by
  cases rt with
  | override =>
    cases vt with
    | any =>
      refine ⟨setKey store host nd, rfl, ?_, ?_⟩
      · rw [getKey_setKey_self]
        rfl
      · intro hne
        exact absurd rfl hne
    | state =>
      refine ⟨setKey store host (setKey [] "state" (Val.dict nd)), ?_, ?_, ?_⟩
      · simp [mgrUpdate, hvUpdate, hh, HostvarType.value, setKey]
      · rw [getKey_setKey_self]
        rfl
      · intro _
        refine ⟨setKey [] "state" (Val.dict nd), getKey_setKey_self _ _ _, ?_⟩
        rw [HostvarType.value, getKey_setKey_self]
        rfl
    | storage =>
      refine ⟨setKey store host (setKey [] "storage" (Val.dict nd)), ?_, ?_, ?_⟩
      · simp [mgrUpdate, hvUpdate, hh, HostvarType.value, setKey]
      · rw [getKey_setKey_self]
        rfl
      · intro _
        refine ⟨setKey [] "storage" (Val.dict nd), getKey_setKey_self _ _ _, ?_⟩
        rw [HostvarType.value, getKey_setKey_self]
        rfl
    | system =>
      refine ⟨setKey store host (setKey [] "system" (Val.dict nd)), ?_, ?_, ?_⟩
      · simp [mgrUpdate, hvUpdate, hh, HostvarType.value, setKey]
      · rw [getKey_setKey_self]
        rfl
      · intro _
        refine ⟨setKey [] "system" (Val.dict nd), getKey_setKey_self _ _ _, ?_⟩
        rw [HostvarType.value, getKey_setKey_self]
        rfl
  | in_place =>
    cases vt with
    | any =>
      refine ⟨setKey store host (deep_merge [] nd), ?_, ?_, ?_⟩
      · simp [mgrUpdate, hvUpdate, hh]
      · rw [getKey_setKey_self]
        rfl
      · intro hne
        exact absurd rfl hne
    | state =>
      refine ⟨setKey store host (setKey [] "state" (Val.dict (deep_merge [] nd))), ?_, ?_, ?_⟩
      · simp [mgrUpdate, hvUpdate, hh, HostvarType.value, getKey, pyDeepMergeVal_dict, Except.map]
      · rw [getKey_setKey_self]
        rfl
      · intro _
        refine ⟨setKey [] "state" (Val.dict (deep_merge [] nd)), getKey_setKey_self _ _ _, ?_⟩
        rw [HostvarType.value, getKey_setKey_self]
        rfl
    | storage =>
      refine ⟨setKey store host (setKey [] "storage" (Val.dict (deep_merge [] nd))), ?_, ?_, ?_⟩
      · simp [mgrUpdate, hvUpdate, hh, HostvarType.value, getKey, pyDeepMergeVal_dict, Except.map]
      · rw [getKey_setKey_self]
        rfl
      · intro _
        refine ⟨setKey [] "storage" (Val.dict (deep_merge [] nd)), getKey_setKey_self _ _ _, ?_⟩
        rw [HostvarType.value, getKey_setKey_self]
        rfl
    | system =>
      refine ⟨setKey store host (setKey [] "system" (Val.dict (deep_merge [] nd))), ?_, ?_, ?_⟩
      · simp [mgrUpdate, hvUpdate, hh, HostvarType.value, getKey, pyDeepMergeVal_dict, Except.map]
      · rw [getKey_setKey_self]
        rfl
      · intro _
        refine ⟨setKey [] "system" (Val.dict (deep_merge [] nd)), getKey_setKey_self _ _ _, ?_⟩
        rw [HostvarType.value, getKey_setKey_self]
        rfl

/-- Witness for C9: in-place state update on a store without the host. -/
theorem mgrUpdate_missing_host_witness :
    ∃ d2, mgrUpdate [("h2", [])] "h1" HostvarType.state ReplacementType.in_place
        [("a", Val.int 1)] = Except.ok d2 ∧
      (getKey d2 "h1").isSome = true ∧
      (HostvarType.state ≠ HostvarType.any → ∃ r2, getKey d2 "h1" = some r2 ∧
        (getKey r2 HostvarType.state.value).isSome = true) :=
  mgrUpdate_missing_host [("h2", [])] "h1" HostvarType.state
    ReplacementType.in_place [("a", Val.int 1)] rfl

theorem hvUpdate_frame_core (data : HvData) (host : String) (r : Dict)
    (k : String) (v : Val) :
    (∀ h2, h2 ≠ host → getKey (setKey data host (setKey r k v)) h2 = getKey data h2) ∧
    (∃ r2, getKey (setKey data host (setKey r k v)) host = some r2 ∧
      ∀ k2, k2 ≠ k → getKey r2 k2 = getKey r k2) :=
  ⟨fun h2 hne => getKey_setKey_ne data host h2 _ hne,
   ⟨setKey r k v, getKey_setKey_self data host _,
    fun k2 hne => getKey_setKey_ne r k k2 v hne⟩⟩

/-- C10: updating one named section of an existing host record, under
either discipline, leaves every other key of that record unchanged and
leaves every other host's record unchanged. -/
theorem hvUpdate_frame (data : HvData) (host : String) (vt : HostvarType)
    (rt : ReplacementType) (nd : Dict) (r : Dict) (data2 : HvData)
    (hvt : vt ≠ HostvarType.any) (hr : getKey data host = some r)
    (hok : hvUpdate data host vt rt nd = Except.ok data2) :
    (∀ h2, h2 ≠ host → getKey data2 h2 = getKey data h2) ∧
    (∃ r2, getKey data2 host = some r2 ∧
      ∀ k2, k2 ≠ vt.value → getKey r2 k2 = getKey r k2) := by
  cases vt with
  | any => exact absurd rfl hvt
  | state =>
    cases rt with
    | override =>
      simp only [hvUpdate, hr, Option.getD_some, Except.ok.injEq] at hok
      subst hok
      exact hvUpdate_frame_core data host r _ _
    | in_place =>
      rcases hm : pyDeepMergeVal ((getKey r HostvarType.state.value).getD (Val.dict [])) nd with e | v
      · simp only [hvUpdate, hr, Option.getD_some, hm, Except.map] at hok
        exact Except.noConfusion hok
      · simp only [hvUpdate, hr, Option.getD_some, hm, Except.map, Except.ok.injEq] at hok
        subst hok
        exact hvUpdate_frame_core data host r _ _
  | storage =>
    cases rt with
    | override =>
      simp only [hvUpdate, hr, Option.getD_some, Except.ok.injEq] at hok
      subst hok
      exact hvUpdate_frame_core data host r _ _
    | in_place =>
      rcases hm : pyDeepMergeVal ((getKey r HostvarType.storage.value).getD (Val.dict [])) nd with e | v
      · simp only [hvUpdate, hr, Option.getD_some, hm, Except.map] at hok
        exact Except.noConfusion hok
      · simp only [hvUpdate, hr, Option.getD_some, hm, Except.map, Except.ok.injEq] at hok
        subst hok
        exact hvUpdate_frame_core data host r _ _
  | system =>
    cases rt with
    | override =>
      simp only [hvUpdate, hr, Option.getD_some, Except.ok.injEq] at hok
      subst hok
      exact hvUpdate_frame_core data host r _ _
    | in_place =>
      rcases hm : pyDeepMergeVal ((getKey r HostvarType.system.value).getD (Val.dict [])) nd with e | v
      · simp only [hvUpdate, hr, Option.getD_some, hm, Except.map] at hok
        exact Except.noConfusion hok
      · simp only [hvUpdate, hr, Option.getD_some, hm, Except.map, Except.ok.injEq] at hok
        subst hok
        exact hvUpdate_frame_core data host r _ _

/-- Witness for C10: overriding h1's state section leaves h1's other
sections and h2's record untouched. -/
theorem hvUpdate_frame_witness :
    (∀ h2, h2 ≠ "h1" →
      getKey [("h1", [("state", Val.dict [("b", Val.int 2)]), ("extra", Val.int 5)]),
              ("h2", [("x", Val.int 9)])] h2
        = getKey [("h1", [("state", Val.dict [("a", Val.int 1)]), ("extra", Val.int 5)]),
                  ("h2", [("x", Val.int 9)])] h2) ∧
    (∃ r2, getKey [("h1", [("state", Val.dict [("b", Val.int 2)]), ("extra", Val.int 5)]),
                   ("h2", [("x", Val.int 9)])] "h1" = some r2 ∧
      ∀ k2, k2 ≠ HostvarType.state.value →
        getKey r2 k2 = getKey [("state", Val.dict [("a", Val.int 1)]), ("extra", Val.int 5)] k2) :=
  hvUpdate_frame
    [("h1", [("state", Val.dict [("a", Val.int 1)]), ("extra", Val.int 5)]), ("h2", [("x", Val.int 9)])]
    "h1" HostvarType.state ReplacementType.override [("b", Val.int 2)]
    [("state", Val.dict [("a", Val.int 1)]), ("extra", Val.int 5)]
    [("h1", [("state", Val.dict [("b", Val.int 2)]), ("extra", Val.int 5)]), ("h2", [("x", Val.int 9)])]
    (by simp) rfl rfl

/-- C7 (amended): creating a host whose record file already exists is
silently ignored: `HostvarsManager.create` logs a warning and returns
without error, and the existing record store is left unchanged. -/
theorem mgrCreate_duplicate_silent (store : HvData) (host : String)
    (storage system : Dict) (h : (getKey store host).isSome = true) :
    mgrCreate store host storage system = Except.ok store := by
  simp [mgrCreate, h]

/-- Witness for C7 (amended). -/
theorem mgrCreate_duplicate_silent_witness :
    mgrCreate [("web1", [("system", Val.dict [("os", Val.str "arch")])])] "web1"
        [("disk_name", Val.str "sda")] [("os", Val.str "debian")]
      = Except.ok [("web1", [("system", Val.dict [("os", Val.str "arch")])])] :=
  mgrCreate_duplicate_silent [("web1", [("system", Val.dict [("os", Val.str "arch")])])]
    "web1" [("disk_name", Val.str "sda")] [("os", Val.str "debian")] rfl

/-- Counterexample to C7 as stated: creating `web2` when its record file
already exists returns successfully (no error is surfaced to the caller),
with the store unchanged. -/
theorem mgrCreate_duplicate_counterexample :
    mgrCreate [("web2", [("state", Val.dict [])])] "web2"
        [("disk_name", Val.str "sdb")] [("os", Val.str "arch")]
      = Except.ok [("web2", [("state", Val.dict [])])] ∧
    mgrCreate [("web2", [("state", Val.dict [])])] "web2"
        [("disk_name", Val.str "sdb")] [("os", Val.str "arch")]
      ≠ Except.error () := by
  constructor
  · rfl
  · intro h
    rw [show mgrCreate [("web2", [("state", Val.dict [])])] "web2"
          [("disk_name", Val.str "sdb")] [("os", Val.str "arch")]
        = Except.ok [("web2", [("state", Val.dict [])])] from rfl] at h
    exact Except.noConfusion h

theorem getKey_filter_fst_ne {β : Type} (l : List (String × β)) (k : String) :
    getKey (l.filter (fun p => p.1 != k)) k = none := by
  induction l with
  | nil => simp [getKey]
  | cons p rest ih =>
    by_cases h : p.1 = k
    · simp [List.filter_cons, h, ih]
    · simp [List.filter_cons, h, getKey, ih]

/-- C8 (amended): after `HostvarsManager.delete(h)`, the record for `h` is
absent from the store, and `HostvarsManager.get(h)` returns the empty
record as a successful value (`data.get(host, {})`); no failure of any
kind is produced by the read. -/
theorem mgrGet_after_delete (store : HvData) (host : String) :
    getKey (mgrDelete store host) host = none ∧
    mgrGet (mgrDelete store host) host = [] := by
  have habs : getKey (mgrDelete store host) host = none := by
    rw [mgrDelete]
    rcases h : getKey store host with _ | r
    · simp [h]
    · simp [h, getKey_filter_fst_ne]
  exact ⟨habs, by rw [mgrGet, habs]; rfl⟩

/-- Counterexample to C8 as stated: after deleting `web1`'s record,
`get("web1")` evaluates to the empty record `()` as an ordinary successful
result; no `NotFound` failure exists anywhere on this code path. -/
theorem mgrGet_after_delete_counterexample :
    mgrDelete [("web1", [("state", Val.dict [("is_provisioned", Val.bool false)])])] "web1" = [] ∧
    mgrGet (mgrDelete [("web1", [("state", Val.dict [("is_provisioned", Val.bool false)])])] "web1") "web1" = [] :=
  ⟨rfl, rfl⟩

theorem ensureGroup_hosts (inv : Inv) (g : String) :
    (ensureGroup inv g).hosts = inv.hosts := by
  rw [ensureGroup]
  split <;> rfl

/-- C4: adding a host that is already present fails with a duplicate-host
`ValueError` at the domain model, and the manager swallows the error
without saving: the persisted inventory equals the one before the call and
no commit is performed. -/
theorem addHost_duplicate (inv : Inv) (host : String) (gs : List String)
    (ip mac : String) (port : Int) (user : String)
    (hmem : host ∈ keys inv.hosts) :
    invAddHost inv host gs ip mac port user = Except.error "Host already exists." ∧
    mgrAddHost inv host gs ip mac port user = (inv, false) := by
  have he : invAddHost inv host gs ip mac port user = Except.error "Host already exists." := by
    rw [invAddHost]
    have : host ∈ keys (ensureGroup inv "all").hosts := by
      rw [ensureGroup_hosts]
      exact hmem
    simp only [this, if_pos]
  exact ⟨he, by rw [mgrAddHost, he]⟩

/-- Witness for C4: re-adding the existing host `n1`. -/
theorem addHost_duplicate_witness :
    invAddHost ⟨[("n1", [("ansible_host", Val.str "10.0.0.5")])], [("all", ["n1"])]⟩
        "n1" ["workers"] "10.0.0.9" "aa:bb" 22 "root"
      = Except.error "Host already exists." ∧
    mgrAddHost ⟨[("n1", [("ansible_host", Val.str "10.0.0.5")])], [("all", ["n1"])]⟩
        "n1" ["workers"] "10.0.0.9" "aa:bb" 22 "root"
      = (⟨[("n1", [("ansible_host", Val.str "10.0.0.5")])], [("all", ["n1"])]⟩, false) :=
  addHost_duplicate ⟨[("n1", [("ansible_host", Val.str "10.0.0.5")])], [("all", ["n1"])]⟩
    "n1" ["workers"] "10.0.0.9" "aa:bb" 22 "root" (by simp [keys])

/-- C5: removing a host that is not in the inventory is a no-op: the
persisted document is rewritten with identical content and the dirty check
therefore triggers no commit. -/
theorem mgrRemoveHost_absent (inv : Inv) (host : String)
    (h : host ∉ keys inv.hosts) :
    mgrRemoveHost inv host = (invToDict inv, false) := by
  rw [mgrRemoveHost, invRemoveHost]
  simp only [h, if_neg, if_false, reduceIte]
  rw [beqValDict_refl]
  rfl

/-- Witness for C5: removing the absent host `n9`. -/
theorem mgrRemoveHost_absent_witness :
    mgrRemoveHost ⟨[("n1", [])], [("all", ["n1"]), ("workers", ["n1"])]⟩ "n9"
      = (invToDict ⟨[("n1", [])], [("all", ["n1"]), ("workers", ["n1"])]⟩, false) :=
  mgrRemoveHost_absent ⟨[("n1", [])], [("all", ["n1"]), ("workers", ["n1"])]⟩ "n9"
    (by simp [keys])

/-- The `children` entry of group `g` after removing host `n`, computed on
the raw groups list: `none` when `g` is absent or its remaining member list
is empty, otherwise the serialized remaining members. -/
theorem getKey_children_after_removal (n g : String)
    (hg1 : (g != "all") = true) (hg2 : (g != "ungrouped") = true) :
    ∀ l : List (String × List String), (keys l).Nodup →
      getKey ((((l.map (fun p => (p.1, p.2.filter (fun x => x != n)))).filter
          (fun p => !p.2.isEmpty)).filter
          (fun p => p.1 != "all" && p.1 != "ungrouped")).map
          (fun p => (p.1, Val.dict [("hosts", Val.dict (p.2.map (fun h2 => (h2, Val.null))))]))) g
      = (getKey l g).bind (fun ms =>
          if (ms.filter (fun x => x != n)).isEmpty then none
          else some (Val.dict [("hosts",
            Val.dict ((ms.filter (fun x => x != n)).map (fun h2 => (h2, Val.null))))])) := by
  intro l
  induction l with
  | nil =>
    intro _
    simp [getKey]
  | cons p rest ih =>
    intro hnd
    obtain ⟨g1, ms⟩ := p
    have hcons : (g1 :: keys rest).Nodup := by simpa [keys] using hnd
    have hnd1 : g1 ∉ keys rest := (List.nodup_cons.mp hcons).1
    have hnd2 : (keys rest).Nodup := (List.nodup_cons.mp hcons).2
    have htail := ih hnd2
    by_cases hgg : g1 = g
    · subst hgg
      have hrg : getKey rest g1 = none := getKey_eq_none_of_not_mem rest g1 hnd1
      rw [hrg] at htail
      cases hfil : ms.filter (fun x => x != n) with
      | nil =>
        simp only [List.map_cons]
        rw [hfil]
        simp only [List.filter_cons, List.isEmpty_nil, Bool.not_true, Bool.false_eq_true,
          if_false]
        rw [htail]
        simp only [Option.none_bind, getKey]
        simp only [eq_self_iff_true, if_true]
        simp only [Option.some_bind]
        rw [hfil]
        simp only [List.isEmpty_nil]
        simp only [eq_self_iff_true, if_true]
      | cons a as =>
        simp only [List.map_cons]
        rw [hfil]
        simp only [List.filter_cons, List.isEmpty_cons, Bool.not_false]
        simp only [eq_self_iff_true, if_true]
        simp only [List.filter_cons, hg1, hg2, Bool.and_self]
        simp only [eq_self_iff_true, if_true]
        simp only [List.map_cons, getKey]
        simp only [eq_self_iff_true, if_true]
        simp only [Option.some_bind]
        rw [hfil]
        simp only [List.isEmpty_cons, Bool.false_eq_true, if_false, List.map_cons]
    · cases hfil : ms.filter (fun x => x != n) with
      | nil =>
        simp only [List.map_cons]
        rw [hfil]
        simp only [List.filter_cons, List.isEmpty_nil, Bool.not_true, Bool.false_eq_true,
          if_false]
        rw [htail]
        simp only [getKey]
        rw [if_neg hgg]
      | cons a as =>
        by_cases hau : ((g1 != "all" && g1 != "ungrouped") = true)
        · simp only [List.map_cons]
          rw [hfil]
          simp only [List.filter_cons, List.isEmpty_cons, Bool.not_false]
          simp only [eq_self_iff_true, if_true]
          simp only [List.filter_cons]
          rw [if_pos hau]
          simp only [List.map_cons, getKey]
          rw [if_neg hgg]
          rw [htail]
          rw [if_neg hgg]
        · simp only [List.map_cons]
          rw [hfil]
          simp only [List.filter_cons, List.isEmpty_cons, Bool.not_false]
          simp only [eq_self_iff_true, if_true]
          simp only [List.filter_cons]
          rw [if_neg hau]
          rw [htail]
          simp only [getKey]
          rw [if_neg hgg]

/-- C6: after removing a present host `n`, every group other than
`all`/`ungrouped` whose membership became empty is absent from the
serialized document's `children`, while every group that still has at
least one member host is present with exactly its remaining hosts. -/
theorem invRemoveHost_prunes (inv : Inv) (n g : String)
    (hn : n ∈ keys inv.hosts) (hnd : (keys inv.groups).Nodup)
    (hg1 : g ≠ "all") (hg2 : g ≠ "ungrouped") :
    (((getKey inv.groups g).getD []).filter (fun x => x != n) = [] →
      getKey (childrenSection (invRemoveHost inv n)) g = none) ∧
    (((getKey inv.groups g).getD []).filter (fun x => x != n) ≠ [] →
      getKey (childrenSection (invRemoveHost inv n)) g
        = some (Val.dict [("hosts", Val.dict ((((getKey inv.groups g).getD []).filter
            (fun x => x != n)).map (fun h2 => (h2, Val.null))))])) := by
  have hg1b : (g != "all") = true := bne_iff_ne.mpr hg1
  have hg2b : (g != "ungrouped") = true := bne_iff_ne.mpr hg2
  have hc : childrenSection (invRemoveHost inv n)
      = (((inv.groups.map (fun p => (p.1, p.2.filter (fun x => x != n)))).filter
          (fun p => !p.2.isEmpty)).filter
          (fun p => p.1 != "all" && p.1 != "ungrouped")).map
          (fun p => (p.1, Val.dict [("hosts", Val.dict (p.2.map (fun h2 => (h2, Val.null))))])) := by
    rw [invRemoveHost, if_pos hn, childrenSection]
  have He := getKey_children_after_removal n g hg1b hg2b inv.groups hnd
  rw [hc, He]
  cases hk : getKey inv.groups g with
  | none =>
    constructor
    · intro _
      rfl
    · intro hrem
      simp at hrem
  | some ms =>
    constructor
    · intro hrem
      simp only [Option.getD_some] at hrem
      simp [hrem]
      intro x hx
      have hx2 := List.filter_eq_nil_iff.mp hrem x hx
      simpa using hx2
    · intro hrem
      simp only [Option.getD_some] at hrem
      cases hfil : ms.filter (fun x => x != n) with
      | nil => exact absurd hfil hrem
      | cons a as =>
        simp [hfil]
        have ham : a ∈ ms.filter (fun x => x != n) := by
          rw [hfil]
          exact List.mem_cons_self a as
        obtain ⟨ham2, hpred⟩ := List.mem_filter.mp ham
        exact ⟨a, ham2, by simpa using hpred⟩

/-- Witness for C6 on the inventory with hosts `n1`, `n2` and groups
`all ↦ (n1, n2)`, `workers ↦ (n1)`, `db ↦ (n1, n2)`: removing `n1` prunes
`workers` from the children and leaves `db` with exactly `n2`. -/
theorem invRemoveHost_prunes_witness :
    ((((getKey [("all", ["n1", "n2"]), ("workers", ["n1"]), ("db", ["n1", "n2"])] "workers").getD
        []).filter (fun x => x != "n1") = [] →
      getKey (childrenSection (invRemoveHost
        ⟨[("n1", []), ("n2", [])],
         [("all", ["n1", "n2"]), ("workers", ["n1"]), ("db", ["n1", "n2"])]⟩ "n1")) "workers"
        = none) ∧
     (((getKey [("all", ["n1", "n2"]), ("workers", ["n1"]), ("db", ["n1", "n2"])] "workers").getD
        []).filter (fun x => x != "n1") ≠ [] →
      getKey (childrenSection (invRemoveHost
        ⟨[("n1", []), ("n2", [])],
         [("all", ["n1", "n2"]), ("workers", ["n1"]), ("db", ["n1", "n2"])]⟩ "n1")) "workers"
        = some (Val.dict [("hosts", Val.dict ((((getKey [("all", ["n1", "n2"]),
            ("workers", ["n1"]), ("db", ["n1", "n2"])] "workers").getD []).filter
            (fun x => x != "n1")).map (fun h2 => (h2, Val.null))))]))) ∧
    ((((getKey [("all", ["n1", "n2"]), ("workers", ["n1"]), ("db", ["n1", "n2"])] "db").getD
        []).filter (fun x => x != "n1") = [] →
      getKey (childrenSection (invRemoveHost
        ⟨[("n1", []), ("n2", [])],
         [("all", ["n1", "n2"]), ("workers", ["n1"]), ("db", ["n1", "n2"])]⟩ "n1")) "db"
        = none) ∧
     (((getKey [("all", ["n1", "n2"]), ("workers", ["n1"]), ("db", ["n1", "n2"])] "db").getD
        []).filter (fun x => x != "n1") ≠ [] →
      getKey (childrenSection (invRemoveHost
        ⟨[("n1", []), ("n2", [])],
         [("all", ["n1", "n2"]), ("workers", ["n1"]), ("db", ["n1", "n2"])]⟩ "n1")) "db"
        = some (Val.dict [("hosts", Val.dict ((((getKey [("all", ["n1", "n2"]),
            ("workers", ["n1"]), ("db", ["n1", "n2"])] "db").getD []).filter
            (fun x => x != "n1")).map (fun h2 => (h2, Val.null))))]))) :=
  ⟨invRemoveHost_prunes
      ⟨[("n1", []), ("n2", [])],
       [("all", ["n1", "n2"]), ("workers", ["n1"]), ("db", ["n1", "n2"])]⟩
      "n1" "workers" (by simp [keys]) (by simp [keys]) (by simp) (by simp),
   invRemoveHost_prunes
      ⟨[("n1", []), ("n2", [])],
       [("all", ["n1", "n2"]), ("workers", ["n1"]), ("db", ["n1", "n2"])]⟩
      "n1" "db" (by simp [keys]) (by simp [keys]) (by simp) (by simp)⟩

end ProvServer


